import Mathlib

/-!
Verification of the gostl binary STL codec and its demo normal-correction
transform, as a shallow embedding in Lean 4.

Modelling conventions:

* The codec (`uint32From`, `bytesFrom`, `triangleFrom`, `WriteToFile`,
  `ParseStlFile`) never performs arithmetic on the float payloads: it only moves
  their 32-bit patterns between memory and the byte stream, and Go's
  `math.Float32bits` / `math.Float32frombits` are mutually inverse bijections
  on bit patterns.  A `float32` field is therefore modelled by its 32-bit
  pattern, a `Nat` smaller than `2 ^ 32`; `Float32bits` and `Float32frombits`
  become the identity, and "bit-for-bit equal floats" becomes equality of
  these `Nat`s.  Bytes are `Nat`s smaller than `256`.
* The geometric code (`dot`, `cross`, `normalize`, `minimum`, `maximum`,
  `BoundingBox` and the demo's fix-first-triangle pass) computes with the
  float values themselves; it is embedded over the exact field `ℚ`, with
  `math.Sqrt` modelled by `Rat.sqrt` (`Rat.sqrt (q * q) = |q|`, so it is the
  exact square root exactly where a rational square root exists).
* File handles, `os.Open`/`os.Create` and short writes are outside the model:
  parsing is a total function on the byte stream that was read, and writing
  produces the byte stream that reaches the sink.  Go errors become
  `Option.none`; a Go `panic`/`log.Fatal` that aborts the process is likewise
  modelled as `none` where it can be reached.
-/

namespace Gostl

/-- A 3-component vector, `[3]float32` in the source; `α` is `Nat` (bit
patterns) on the codec side and `ℚ` (exact values) on the geometry side. -/
structure Vec3 (α : Type) where
  x : α
  y : α
  z : α
deriving DecidableEq, Repr

/-- Type `Triangle` from main.go: four `[3]float32` fields, the stored normal and
the three vertices. -/
structure Triangle (α : Type) where
  normal : Vec3 α
  p0 : Vec3 α
  p1 : Vec3 α
  p2 : Vec3 α
deriving DecidableEq, Repr

/-! ## Codec: byte-level model (`Triangle Nat`, components are 32-bit patterns) -/

/-- Model of `uint32From` from main.go: assemble a little-endian `uint32` from 4 bytes,
`x |= uint32(bytes[i]) << (8*i)` for `i = 0..3`.  The source `log.Fatal`s when
the slice length is not 4; every call site passes exactly 4 bytes, and the
`getD` default is unreachable there. -/
def uint32From (bs : List Nat) : Nat :=
  (List.range 4).foldl (fun x i => x ||| bs.getD i 0 <<< (8 * i)) 0

/-- Model of `bytesFrom` from main.go: the 4 bytes of a `uint32`, least significant
first, `bytes[i] = byte((u >> (8*i)) & 0xff)`. -/
def bytesFrom (u : Nat) : List Nat :=
  (List.range 4).map (fun i => u >>> (8 * i) &&& 0xff)

/-- Model of `triangleFrom` from main.go: decode a 50-byte record; vector `j`
(normal, p0, p1, p2), component `i` sits at offset `i*4 + j*12`.
`Float32frombits` is the identity in the bit-pattern model.  The source
`log.Fatal`s when the record is not 50 bytes; its only caller passes exactly
50 bytes. -/
def triangleFrom (bs : List Nat) : Triangle Nat :=
  { normal := ⟨uint32From ((bs.drop 0).take 4), uint32From ((bs.drop 4).take 4),
               uint32From ((bs.drop 8).take 4)⟩
    p0 := ⟨uint32From ((bs.drop 12).take 4), uint32From ((bs.drop 16).take 4),
           uint32From ((bs.drop 20).take 4)⟩
    p1 := ⟨uint32From ((bs.drop 24).take 4), uint32From ((bs.drop 28).take 4),
           uint32From ((bs.drop 32).take 4)⟩
    p2 := ⟨uint32From ((bs.drop 36).take 4), uint32From ((bs.drop 40).take 4),
           uint32From ((bs.drop 44).take 4)⟩ }

/-- The 80-byte header written by `Model.WriteToFile`: the ASCII bytes of
"STL" copied into a zero-filled 80-byte buffer. -/
def stlHeader : List Nat :=
  [83, 84, 76] ++ List.replicate 77 0

/-- The 12 bytes of one `[3]float32` block as written by `Model.WriteToFile`:
three little-endian `uint32` bit patterns (`math.Float32bits` is the identity
in the bit-pattern model). -/
def encodeVec3 (v : Vec3 Nat) : List Nat :=
  bytesFrom v.x ++ bytesFrom v.y ++ bytesFrom v.z

/-- One 50-byte record as written by `Model.WriteToFile`: normal, p0, p1, p2
at offsets 0, 12, 24, 36 of the record buffer, and the 2 trailing bytes of the
zero-initialised 50-byte buffer, which no write ever touches. -/
def encodeTriangle (t : Triangle Nat) : List Nat :=
  encodeVec3 t.normal ++ encodeVec3 t.p0 ++ encodeVec3 t.p1 ++ encodeVec3 t.p2 ++ [0, 0]

/-- The byte stream produced by `Model.WriteToFile`: 80-byte header, then
`bytesFrom(uint32(len(m.Triangles)))` — note `bytesFrom` keeps only the low
8 bits of each byte, which is exactly the `uint32(...)` truncation — then the
triangles' 50-byte records in sequence order. -/
def WriteToFile (ts : List (Triangle Nat)) : List Nat :=
  stlHeader ++ bytesFrom ts.length ++ (ts.map encodeTriangle).flatten

/-- The triangle-reading loop of `ParseStlFile`: read `n` records of 50 bytes
each; a short read (fewer than 50 bytes available) aborts the whole parse with
an error, modelled as `none`. -/
def parseTriangles (bs : List Nat) : Nat → Option (List (Triangle Nat))
  | 0 => some []
  | n + 1 =>
    if bs.length < 50 then none
    else (parseTriangles (bs.drop 50) n).map (fun rest => triangleFrom (bs.take 50) :: rest)

/-- Model of `ParseStlFile` from main.go at the byte-stream level: require (and
discard) an 80-byte header, require a 4-byte little-endian count, then read
exactly that many 50-byte records.  Any short read is an error (`none`); the
partially built triangle list is discarded with it. -/
def ParseStlFile (bs : List Nat) : Option (List (Triangle Nat)) :=
  if bs.length < 80 then none
  else if (bs.drop 80).length < 4 then none
  else parseTriangles ((bs.drop 80).drop 4) (uint32From ((bs.drop 80).take 4))

/-- A vector of genuine `float32` bit patterns: each component fits in 32
bits.  This is the typing invariant Go's `float32` provides for free. -/
def validVec3 (v : Vec3 Nat) : Prop :=
  v.x < 2 ^ 32 ∧ v.y < 2 ^ 32 ∧ v.z < 2 ^ 32

/-- All four vectors of the triangle hold 32-bit patterns. -/
def validTriangle (t : Triangle Nat) : Prop :=
  validVec3 t.normal ∧ validVec3 t.p0 ∧ validVec3 t.p1 ∧ validVec3 t.p2

instance (v : Vec3 Nat) : Decidable (validVec3 v) := by
  unfold validVec3; infer_instance

instance (t : Triangle Nat) : Decidable (validTriangle t) := by
  unfold validTriangle; infer_instance

/-! ## Geometry: exact-value model (`Triangle ℚ`) -/

/-- Model of `dot` from the demo command: sum of componentwise products. -/
def dot (a b : Vec3 ℚ) : ℚ :=
  a.x * b.x + a.y * b.y + a.z * b.z

/-- Model of `cross` from the demo command: right-handed cross product,
`(a.y*b.z - b.y*a.z, a.z*b.x - b.z*a.x, a.x*b.y - b.x*a.y)`. -/
def cross (a b : Vec3 ℚ) : Vec3 ℚ :=
  ⟨a.y * b.z - b.y * a.z, a.z * b.x - b.z * a.x, a.x * b.y - b.x * a.y⟩

/-- The body of `normalize` after the length has been computed: `il := 1/l`,
then every component is scaled by `il`. -/
def normalizeWith (l : ℚ) (a : Vec3 ℚ) : Vec3 ℚ :=
  let il := 1 / l
  ⟨a.x * il, a.y * il, a.z * il⟩

/-- Model of `normalize` from the demo command: `l := sqrt(dot(a, a))`, then scale by
`1/l`.  `math.Sqrt` is modelled by `Rat.sqrt`, the exact square root wherever
a rational square root exists (`Rat.sqrt (q * q) = |q|`). -/
def normalize (a : Vec3 ℚ) : Vec3 ℚ :=
  normalizeWith (Rat.sqrt (dot a a)) a

/-- Model of `minimum` from main.go: seed with `xs[0]`, then keep the smaller element.
The source indexes `xs[0]` unconditionally and would panic on an empty
argument list; no call site passes one, and the `[]` case is unreachable
there. -/
def minimum : List ℚ → ℚ
  | [] => 0
  | x :: xs => xs.foldl (fun m y => if y < m then y else m) x

/-- Model of `maximum` from main.go: seed with `xs[0]`, then keep the larger element.
The `[]` case is unreachable at every call site, as for `minimum`. -/
def maximum : List ℚ → ℚ
  | [] => 0
  | x :: xs => xs.foldl (fun m y => if y > m then y else m) x

/-- One iteration of the `BoundingBox` loop: fold the triangle's three
vertices into the running per-axis minima and maxima. -/
def bbStep (acc : Vec3 ℚ × Vec3 ℚ) (t : Triangle ℚ) : Vec3 ℚ × Vec3 ℚ :=
  (⟨minimum [acc.1.x, t.p0.x, t.p1.x, t.p2.x],
    minimum [acc.1.y, t.p0.y, t.p1.y, t.p2.y],
    minimum [acc.1.z, t.p0.z, t.p1.z, t.p2.z]⟩,
   ⟨maximum [acc.2.x, t.p0.x, t.p1.x, t.p2.x],
    maximum [acc.2.y, t.p0.y, t.p1.y, t.p2.y],
    maximum [acc.2.z, t.p0.z, t.p1.z, t.p2.z]⟩)

/-- Model of `Model.BoundingBox` from main.go: seed both corners with
`Triangles[0].P0`, then fold `bbStep` over every triangle (the first one
included, as in the source's `range` loop).  On an empty mesh the source's
very first access `m.Triangles[0]` panics with an index-out-of-range runtime
error; that aborted execution is modelled as `none`. -/
def BoundingBox (ts : List (Triangle ℚ)) : Option (Vec3 ℚ × Vec3 ℚ) :=
  match ts with
  | [] => none
  | t0 :: _ => some (ts.foldl bbStep (t0.p0, t0.p0))

/-- The pre-normalization corrected normal of the demo command:
`n1 := cross(P0, P1)`; `if dot(n0, n1) > 0 { n1 = cross(P1, P0) }`. -/
def correctedPreNorm (t : Triangle ℚ) : Vec3 ℚ :=
  let n0 := t.normal
  let n1 := cross t.p0 t.p1
  if dot n0 n1 > 0 then cross t.p1 t.p0 else n1

/-- The per-triangle body of the demo loop: replace the stored normal with
`normalize` of the corrected candidate; the vertices are untouched (`t` is a
by-value copy whose only mutated field is `Normal`). -/
def fixTriangle (t : Triangle ℚ) : Triangle ℚ :=
  { t with normal := normalize (correctedPreNorm t) }

/-- The demo's loop-with-immediate-break over `m.Triangles`: the body runs
only for index 0, so the pass rewrites the first triangle (when there is one)
and leaves every other triangle as it is. -/
def fixFirstTriangle (ts : List (Triangle ℚ)) : List (Triangle ℚ) :=
  match ts with
  | [] => []
  | t :: rest => fixTriangle t :: rest

/-- The coordinates of all triangle vertices along one axis, in mesh order;
`f` projects the axis (`Vec3.x`, `Vec3.y` or `Vec3.z`).  Normals are not
collected. -/
def axisCoords (f : Vec3 ℚ → ℚ) : List (Triangle ℚ) → List ℚ
  | [] => []
  | t :: ts => f t.p0 :: f t.p1 :: f t.p2 :: axisCoords f ts

/-! ## Helper lemmas: little-endian byte packing -/

theorem lor_shiftLeft_eq_add {a b k : Nat} (ha : a < 2 ^ k) :
    a ||| b <<< k = a + b * 2 ^ k := by
  apply Nat.eq_of_testBit_eq
  intro j
  rw [Nat.testBit_lor, Nat.testBit_shiftLeft, Nat.add_comm, Nat.mul_comm,
      Nat.testBit_mul_pow_two_add b ha j]
  rcases Nat.lt_or_ge j k with h | h
  · simp [h, Nat.not_le.mpr h]
  · have hj : a < 2 ^ j := lt_of_lt_of_le ha (Nat.pow_le_pow_right (by norm_num) h)
    simp [Nat.testBit_lt_two_pow hj, h, Nat.not_lt.mpr h]

theorem and_255_eq_mod (x : Nat) : x &&& 255 = x % 256 := by
  have h := Nat.and_pow_two_sub_one_eq_mod x 8
  norm_num at h
  exact h

theorem bytesFrom_eq (u : Nat) :
    bytesFrom u = [u % 256, u / 256 % 256, u / 65536 % 256, u / 16777216 % 256] := by
  simp [bytesFrom, List.range_succ, Nat.shiftRight_eq_div_pow, and_255_eq_mod]

theorem bytesFrom_length (u : Nat) : (bytesFrom u).length = 4 := by
  rw [bytesFrom_eq]
  rfl

theorem bytesFrom_lt (u : Nat) : ∀ b ∈ bytesFrom u, b < 256 := by
  rw [bytesFrom_eq]
  intro b hb
  simp only [List.mem_cons, List.not_mem_nil, or_false] at hb
  rcases hb with rfl | rfl | rfl | rfl <;> omega

theorem uint32From_cons4 (b0 b1 b2 b3 : Nat) (h0 : b0 < 256) (h1 : b1 < 256) (h2 : b2 < 256) :
    uint32From [b0, b1, b2, b3] = b0 + b1 * 256 + b2 * 65536 + b3 * 16777216 := by
  show (((0 ||| b0 <<< (8 * 0)) ||| b1 <<< (8 * 1)) ||| b2 <<< (8 * 2)) ||| b3 <<< (8 * 3) = _
  norm_num
  rw [lor_shiftLeft_eq_add (show b0 < 2 ^ 8 by omega),
      lor_shiftLeft_eq_add (show b0 + b1 * 2 ^ 8 < 2 ^ 16 by omega),
      lor_shiftLeft_eq_add (show b0 + b1 * 2 ^ 8 + b2 * 2 ^ 16 < 2 ^ 24 by omega)]
  norm_num

theorem uint32From_bytesFrom_mod (u : Nat) : uint32From (bytesFrom u) = u % 2 ^ 32 := by
  rw [bytesFrom_eq, uint32From_cons4 _ _ _ _ (by omega) (by omega) (by omega)]
  omega

theorem uint32From_bytesFrom {u : Nat} (hu : u < 2 ^ 32) : uint32From (bytesFrom u) = u := by
  rw [uint32From_bytesFrom_mod, Nat.mod_eq_of_lt hu]

theorem bytesFrom_uint32From {b0 b1 b2 b3 : Nat}
    (h0 : b0 < 256) (h1 : b1 < 256) (h2 : b2 < 256) (h3 : b3 < 256) :
    bytesFrom (uint32From [b0, b1, b2, b3]) = [b0, b1, b2, b3] := by
  rw [uint32From_cons4 _ _ _ _ h0 h1 h2, bytesFrom_eq]
  simp only [List.cons.injEq, and_true]
  omega

/-! ## Helper lemmas: record slicing and the encode/decode round trip -/

theorem flatten_blocks_slice (k : Nat) (l : List (List Nat)) (tail : List Nat)
    (hk : ∀ b ∈ l, b.length = k) :
    ∀ (i : Nat) (hi : i < l.length),
      ((l.flatten ++ tail).drop (k * i)).take k = l.get ⟨i, hi⟩ := by
  induction l with
  | nil => intro i hi; simp at hi
  | cons b l ih =>
    intro i hi
    have hb : b.length = k := hk b (List.mem_cons_self b l)
    match i with
    | 0 =>
      simp only [Nat.mul_zero, List.drop_zero, List.flatten_cons, List.append_assoc]
      exact List.take_left' hb
    | j + 1 =>
      have hmul : k * (j + 1) = b.length + k * j := by rw [hb]; ring
      rw [List.flatten_cons, List.append_assoc, hmul, List.drop_append]
      exact ih (fun x hx => hk x (List.mem_cons_of_mem b hx)) j (by simpa using hi)

theorem encodeVec3_length (v : Vec3 Nat) : (encodeVec3 v).length = 12 := by
  simp [encodeVec3, bytesFrom_length]

theorem encodeTriangle_length (t : Triangle Nat) : (encodeTriangle t).length = 50 := by
  simp [encodeTriangle, encodeVec3_length]

theorem encodeTriangle_blocks (t : Triangle Nat) :
    encodeTriangle t =
      ([bytesFrom t.normal.x, bytesFrom t.normal.y, bytesFrom t.normal.z,
        bytesFrom t.p0.x, bytesFrom t.p0.y, bytesFrom t.p0.z,
        bytesFrom t.p1.x, bytesFrom t.p1.y, bytesFrom t.p1.z,
        bytesFrom t.p2.x, bytesFrom t.p2.y, bytesFrom t.p2.z] : List (List Nat)).flatten
        ++ [0, 0] := by
  simp [encodeTriangle, encodeVec3]

theorem triangleFrom_encodeTriangle {t : Triangle Nat} (ht : validTriangle t) :
    triangleFrom (encodeTriangle t) = t := by
  obtain ⟨⟨n1, n2, n3⟩, ⟨a1, a2, a3⟩, ⟨b1, b2, b3⟩, ⟨c1, c2, c3⟩⟩ := t
  obtain ⟨⟨e1, e2, e3⟩, ⟨e4, e5, e6⟩, ⟨e7, e8, e9⟩, ⟨e10, e11, e12⟩⟩ := ht
  set L : List (List Nat) := [bytesFrom n1, bytesFrom n2, bytesFrom n3,
    bytesFrom a1, bytesFrom a2, bytesFrom a3,
    bytesFrom b1, bytesFrom b2, bytesFrom b3,
    bytesFrom c1, bytesFrom c2, bytesFrom c3] with hL
  have hrepr : encodeTriangle ⟨⟨n1, n2, n3⟩, ⟨a1, a2, a3⟩, ⟨b1, b2, b3⟩, ⟨c1, c2, c3⟩⟩
      = L.flatten ++ [0, 0] := by
    rw [hL]
    simp [encodeTriangle, encodeVec3]
  have hk : ∀ b ∈ L, b.length = 4 := by
    rw [hL]
    intro b hb
    simp only [List.mem_cons, List.not_mem_nil, or_false] at hb
    rcases hb with rfl | rfl | rfl | rfl | rfl | rfl | rfl | rfl | rfl | rfl | rfl | rfl <;>
      exact bytesFrom_length _
  have hlen : L.length = 12 := by rw [hL]; rfl
  have g := flatten_blocks_slice 4 L [0, 0] hk
  have g0 : ((L.flatten ++ [0, 0]).drop 0).take 4 = bytesFrom n1 := g 0 (by omega)
  have g1 : ((L.flatten ++ [0, 0]).drop 4).take 4 = bytesFrom n2 := g 1 (by omega)
  have g2 : ((L.flatten ++ [0, 0]).drop 8).take 4 = bytesFrom n3 := g 2 (by omega)
  have g3 : ((L.flatten ++ [0, 0]).drop 12).take 4 = bytesFrom a1 := g 3 (by omega)
  have g4 : ((L.flatten ++ [0, 0]).drop 16).take 4 = bytesFrom a2 := g 4 (by omega)
  have g5 : ((L.flatten ++ [0, 0]).drop 20).take 4 = bytesFrom a3 := g 5 (by omega)
  have g6 : ((L.flatten ++ [0, 0]).drop 24).take 4 = bytesFrom b1 := g 6 (by omega)
  have g7 : ((L.flatten ++ [0, 0]).drop 28).take 4 = bytesFrom b2 := g 7 (by omega)
  have g8 : ((L.flatten ++ [0, 0]).drop 32).take 4 = bytesFrom b3 := g 8 (by omega)
  have g9 : ((L.flatten ++ [0, 0]).drop 36).take 4 = bytesFrom c1 := g 9 (by omega)
  have g10 : ((L.flatten ++ [0, 0]).drop 40).take 4 = bytesFrom c2 := g 10 (by omega)
  have g11 : ((L.flatten ++ [0, 0]).drop 44).take 4 = bytesFrom c3 := g 11 (by omega)
  rw [hrepr]
  simp only [triangleFrom, Triangle.mk.injEq, Vec3.mk.injEq]
  rw [g0, g1, g2, g3, g4, g5, g6, g7, g8, g9, g10, g11]
  refine ⟨⟨?_, ?_, ?_⟩, ⟨?_, ?_, ?_⟩, ⟨?_, ?_, ?_⟩, ?_, ?_, ?_⟩ <;>
    exact uint32From_bytesFrom (by assumption)

theorem parseTriangles_flatten (ts : List (Triangle Nat)) (hv : ∀ t ∈ ts, validTriangle t) :
    parseTriangles (ts.map encodeTriangle).flatten ts.length = some ts := by
  induction ts with
  | nil => rfl
  | cons t ts ih =>
    have ht : validTriangle t := hv t (List.mem_cons_self t ts)
    have hlen : (encodeTriangle t).length = 50 := encodeTriangle_length t
    simp only [List.map_cons, List.flatten_cons, List.length_cons, parseTriangles]
    rw [if_neg (by simp [List.length_append, hlen]), List.drop_left' hlen,
        ih (fun x hx => hv x (List.mem_cons_of_mem t hx)), List.take_left' hlen,
        triangleFrom_encodeTriangle ht]
    rfl

theorem stlHeader_length : stlHeader.length = 80 := by
  simp [stlHeader]

theorem encodeBody_length (ts : List (Triangle Nat)) :
    (ts.map encodeTriangle).flatten.length = 50 * ts.length := by
  induction ts with
  | nil => rfl
  | cons t ts ih =>
    simp only [List.map_cons, List.flatten_cons, List.length_append, List.length_cons,
      encodeTriangle_length, ih]
    ring

theorem WriteToFile_length (ts : List (Triangle Nat)) :
    (WriteToFile ts).length = 84 + 50 * ts.length := by
  simp only [WriteToFile, List.length_append, stlHeader_length, bytesFrom_length,
    encodeBody_length]

theorem WriteToFile_drop80 (ts : List (Triangle Nat)) :
    (WriteToFile ts).drop 80 = bytesFrom ts.length ++ (ts.map encodeTriangle).flatten := by
  unfold WriteToFile
  exact List.drop_left' stlHeader_length

theorem WriteToFile_countField (ts : List (Triangle Nat)) :
    ((WriteToFile ts).drop 80).take 4 = bytesFrom ts.length := by
  rw [WriteToFile_drop80]
  exact List.take_left' (bytesFrom_length _)

theorem ParseStlFile_WriteToFile (ts : List (Triangle Nat)) :
    ParseStlFile (WriteToFile ts)
      = parseTriangles (ts.map encodeTriangle).flatten (uint32From (bytesFrom ts.length)) := by
  unfold ParseStlFile
  rw [if_neg (by rw [WriteToFile_length]; omega), WriteToFile_drop80,
      if_neg (by simp [List.length_append, bytesFrom_length]),
      List.drop_left' (bytesFrom_length _), List.take_left' (bytesFrom_length _)]

theorem parseTriangles_short (bs : List Nat) (n : Nat) (h : bs.length < 50 * n) :
    parseTriangles bs n = none := by
  induction n generalizing bs with
  | zero => omega
  | succ n ih =>
    by_cases hb : bs.length < 50
    · simp [parseTriangles, hb]
    · simp only [parseTriangles, if_neg hb]
      rw [ih (bs.drop 50) (by simp only [List.length_drop]; omega)]
      rfl

/-! ## Helper lemmas: min/max folds and the bounding box -/

theorem foldl_min_mem (xs : List ℚ) :
    ∀ s : ℚ, xs.foldl (fun m y => if y < m then y else m) s ∈ s :: xs := by
  induction xs with
  | nil => intro s; simp
  | cons y ys ih =>
    intro s
    simp only [List.foldl_cons]
    have h := ih (if y < s then y else s)
    rw [List.mem_cons] at h
    rcases h with h | h
    · rw [h]
      split_ifs
      · exact List.mem_cons_of_mem s (List.mem_cons_self y ys)
      · exact List.mem_cons_self s (y :: ys)
    · exact List.mem_cons_of_mem s (List.mem_cons_of_mem y h)

theorem foldl_min_le (xs : List ℚ) :
    ∀ s : ℚ, ∀ c ∈ s :: xs, xs.foldl (fun m y => if y < m then y else m) s ≤ c := by
  induction xs with
  | nil =>
    intro s c hc
    rw [List.mem_singleton] at hc
    simp [hc]
  | cons y ys ih =>
    intro s c hc
    simp only [List.foldl_cons]
    have hs : (if y < s then y else s) ≤ s := by split_ifs with h; exact le_of_lt h; rfl
    have hy : (if y < s then y else s) ≤ y := by split_ifs with h; rfl; exact le_of_not_lt h
    have hseed := ih (if y < s then y else s) _ (List.mem_cons_self _ ys)
    rw [List.mem_cons] at hc
    rcases hc with rfl | hc
    · exact le_trans hseed hs
    · rw [List.mem_cons] at hc
      rcases hc with rfl | hc
      · exact le_trans hseed hy
      · exact ih _ c (List.mem_cons_of_mem _ hc)

theorem foldl_max_mem (xs : List ℚ) :
    ∀ s : ℚ, xs.foldl (fun m y => if y > m then y else m) s ∈ s :: xs := by
  induction xs with
  | nil => intro s; simp
  | cons y ys ih =>
    intro s
    simp only [List.foldl_cons]
    have h := ih (if y > s then y else s)
    rw [List.mem_cons] at h
    rcases h with h | h
    · rw [h]
      split_ifs
      · exact List.mem_cons_of_mem s (List.mem_cons_self y ys)
      · exact List.mem_cons_self s (y :: ys)
    · exact List.mem_cons_of_mem s (List.mem_cons_of_mem y h)

theorem foldl_max_ge (xs : List ℚ) :
    ∀ s : ℚ, ∀ c ∈ s :: xs, c ≤ xs.foldl (fun m y => if y > m then y else m) s := by
  induction xs with
  | nil =>
    intro s c hc
    rw [List.mem_singleton] at hc
    simp [hc]
  | cons y ys ih =>
    intro s c hc
    simp only [List.foldl_cons]
    have hs : s ≤ (if y > s then y else s) := by split_ifs with h; exact le_of_lt h; rfl
    have hy : y ≤ (if y > s then y else s) := by split_ifs with h; rfl; exact le_of_not_lt h
    have hseed := ih (if y > s then y else s) _ (List.mem_cons_self _ ys)
    rw [List.mem_cons] at hc
    rcases hc with rfl | hc
    · exact le_trans hs hseed
    · rw [List.mem_cons] at hc
      rcases hc with rfl | hc
      · exact le_trans hy hseed
      · exact ih _ c (List.mem_cons_of_mem _ hc)

theorem minimum_mem (s : ℚ) (xs : List ℚ) : minimum (s :: xs) ∈ s :: xs :=
  foldl_min_mem xs s

theorem minimum_le (s : ℚ) (xs : List ℚ) : ∀ c ∈ s :: xs, minimum (s :: xs) ≤ c :=
  foldl_min_le xs s

theorem maximum_mem (s : ℚ) (xs : List ℚ) : maximum (s :: xs) ∈ s :: xs :=
  foldl_max_mem xs s

theorem maximum_ge (s : ℚ) (xs : List ℚ) : ∀ c ∈ s :: xs, c ≤ maximum (s :: xs) :=
  foldl_max_ge xs s

theorem bbFold_min (f : Vec3 ℚ → ℚ)
    (hproj : ∀ (acc : Vec3 ℚ × Vec3 ℚ) (t : Triangle ℚ),
      f (bbStep acc t).1 = minimum [f acc.1, f t.p0, f t.p1, f t.p2]) :
    ∀ (ts : List (Triangle ℚ)) (acc : Vec3 ℚ × Vec3 ℚ),
      f (ts.foldl bbStep acc).1 ∈ f acc.1 :: axisCoords f ts ∧
        ∀ c ∈ f acc.1 :: axisCoords f ts, f (ts.foldl bbStep acc).1 ≤ c := by
  intro ts
  induction ts with
  | nil =>
    intro acc
    refine ⟨by simp [axisCoords], ?_⟩
    intro c hc
    simp only [axisCoords, List.mem_singleton] at hc
    simp [hc]
  | cons t ts ih =>
    intro acc
    simp only [List.foldl_cons, axisCoords]
    obtain ⟨ihm, ihb⟩ := ih (bbStep acc t)
    rw [hproj acc t] at ihm ihb
    constructor
    · rw [List.mem_cons] at ihm
      rcases ihm with h | h
      · have hm := minimum_mem (f acc.1) [f t.p0, f t.p1, f t.p2]
        rw [h]
        simp only [List.mem_cons, List.not_mem_nil, or_false] at hm
        simp only [List.mem_cons]
        tauto
      · simp only [List.mem_cons]
        tauto
    · intro c hc
      have hmin := ihb _ (List.mem_cons_self _ _)
      simp only [List.mem_cons] at hc
      rcases hc with rfl | rfl | rfl | rfl | hc
      · exact le_trans hmin (minimum_le _ _ _ (by simp))
      · exact le_trans hmin (minimum_le _ _ _ (by simp))
      · exact le_trans hmin (minimum_le _ _ _ (by simp))
      · exact le_trans hmin (minimum_le _ _ _ (by simp))
      · exact ihb c (List.mem_cons_of_mem _ hc)

theorem bbFold_max (f : Vec3 ℚ → ℚ)
    (hproj : ∀ (acc : Vec3 ℚ × Vec3 ℚ) (t : Triangle ℚ),
      f (bbStep acc t).2 = maximum [f acc.2, f t.p0, f t.p1, f t.p2]) :
    ∀ (ts : List (Triangle ℚ)) (acc : Vec3 ℚ × Vec3 ℚ),
      f (ts.foldl bbStep acc).2 ∈ f acc.2 :: axisCoords f ts ∧
        ∀ c ∈ f acc.2 :: axisCoords f ts, c ≤ f (ts.foldl bbStep acc).2 := by
  intro ts
  induction ts with
  | nil =>
    intro acc
    refine ⟨by simp [axisCoords], ?_⟩
    intro c hc
    simp only [axisCoords, List.mem_singleton] at hc
    simp [hc]
  | cons t ts ih =>
    intro acc
    simp only [List.foldl_cons, axisCoords]
    obtain ⟨ihm, ihb⟩ := ih (bbStep acc t)
    rw [hproj acc t] at ihm ihb
    constructor
    · rw [List.mem_cons] at ihm
      rcases ihm with h | h
      · have hm := maximum_mem (f acc.2) [f t.p0, f t.p1, f t.p2]
        rw [h]
        simp only [List.mem_cons, List.not_mem_nil, or_false] at hm
        simp only [List.mem_cons]
        tauto
      · simp only [List.mem_cons]
        tauto
    · intro c hc
      have hmax := ihb _ (List.mem_cons_self _ _)
      simp only [List.mem_cons] at hc
      rcases hc with rfl | rfl | rfl | rfl | hc
      · exact le_trans (maximum_ge _ _ _ (by simp)) hmax
      · exact le_trans (maximum_ge _ _ _ (by simp)) hmax
      · exact le_trans (maximum_ge _ _ _ (by simp)) hmax
      · exact le_trans (maximum_ge _ _ _ (by simp)) hmax
      · exact ihb c (List.mem_cons_of_mem _ hc)

theorem foldl_bbStep_map_normal (v : Vec3 ℚ) (ts : List (Triangle ℚ)) (a : Vec3 ℚ × Vec3 ℚ) :
    (ts.map (fun t => { t with normal := v })).foldl bbStep a = ts.foldl bbStep a := by
  induction ts generalizing a with
  | nil => rfl
  | cons t ts ih =>
    simp only [List.map_cons, List.foldl_cons]
    exact ih (bbStep a t)

theorem BoundingBox_map_normal (ts : List (Triangle ℚ)) (v : Vec3 ℚ) :
    BoundingBox (ts.map (fun t => { t with normal := v })) = BoundingBox ts := by
  cases ts with
  | nil => rfl
  | cons t rest =>
    simp only [List.map_cons, BoundingBox]
    rw [show (({ t with normal := v } : Triangle ℚ) :: rest.map (fun t => { t with normal := v }))
          = ((t :: rest).map (fun t => { t with normal := v })) from rfl,
        foldl_bbStep_map_normal]

theorem BoundingBox_min_axis (f : Vec3 ℚ → ℚ)
    (hproj : ∀ (acc : Vec3 ℚ × Vec3 ℚ) (t : Triangle ℚ),
      f (bbStep acc t).1 = minimum [f acc.1, f t.p0, f t.p1, f t.p2])
    (t0 : Triangle ℚ) (rest : List (Triangle ℚ)) :
    f ((t0 :: rest).foldl bbStep (t0.p0, t0.p0)).1 ∈ axisCoords f (t0 :: rest) ∧
      ∀ c ∈ axisCoords f (t0 :: rest), f ((t0 :: rest).foldl bbStep (t0.p0, t0.p0)).1 ≤ c := by
  obtain ⟨hm, hb⟩ := bbFold_min f hproj (t0 :: rest) (t0.p0, t0.p0)
  constructor
  · rcases List.mem_cons.mp hm with h | h
    · rw [h]
      show f t0.p0 ∈ f t0.p0 :: f t0.p1 :: f t0.p2 :: axisCoords f rest
      exact List.mem_cons_self _ _
    · exact h
  · intro c hc
    exact hb c (List.mem_cons_of_mem _ hc)

theorem BoundingBox_max_axis (f : Vec3 ℚ → ℚ)
    (hproj : ∀ (acc : Vec3 ℚ × Vec3 ℚ) (t : Triangle ℚ),
      f (bbStep acc t).2 = maximum [f acc.2, f t.p0, f t.p1, f t.p2])
    (t0 : Triangle ℚ) (rest : List (Triangle ℚ)) :
    f ((t0 :: rest).foldl bbStep (t0.p0, t0.p0)).2 ∈ axisCoords f (t0 :: rest) ∧
      ∀ c ∈ axisCoords f (t0 :: rest), c ≤ f ((t0 :: rest).foldl bbStep (t0.p0, t0.p0)).2 := by
  obtain ⟨hm, hb⟩ := bbFold_max f hproj (t0 :: rest) (t0.p0, t0.p0)
  constructor
  · rcases List.mem_cons.mp hm with h | h
    · rw [h]
      show f t0.p0 ∈ f t0.p0 :: f t0.p1 :: f t0.p2 :: axisCoords f rest
      exact List.mem_cons_self _ _
    · exact h
  · intro c hc
    exact hb c (List.mem_cons_of_mem _ hc)

/-! ## Claim theorems -/

/-- Claim C8 (confirmed): cross-product antisymmetry.  For all vectors `a`,
`b`, `cross a b` is the componentwise negation of `cross b a`.  In the exact
rational model this holds with no tolerance; the float statement follows
because each component is a correctly rounded difference and IEEE-754
rounding is odd-symmetric, with no NaN caveat needed over `ℚ`. -/
theorem C8_cross_antisymm (a b : Vec3 ℚ) :
    cross a b = ⟨-(cross b a).x, -(cross b a).y, -(cross b a).z⟩ := by
  simp only [cross, Vec3.mk.injEq]
  refine ⟨by ring, by ring, by ring⟩

/-- Claim C7 (confirmed): the demo pass touches at most the first triangle;
the length is preserved, every triangle after index 0 is returned unchanged,
and the first triangle's `p0`, `p1`, `p2` are unchanged — only its normal may
differ. -/
theorem C7_fix_first_frame (ts : List (Triangle ℚ)) :
    (fixFirstTriangle ts).length = ts.length ∧
    (fixFirstTriangle ts).drop 1 = ts.drop 1 ∧
    (fixFirstTriangle ts).head?.map Triangle.p0 = ts.head?.map Triangle.p0 ∧
    (fixFirstTriangle ts).head?.map Triangle.p1 = ts.head?.map Triangle.p1 ∧
    (fixFirstTriangle ts).head?.map Triangle.p2 = ts.head?.map Triangle.p2 := by
  cases ts with
  | nil => exact ⟨rfl, rfl, rfl, rfl, rfl⟩
  | cons t rest => exact ⟨rfl, rfl, rfl, rfl, rfl⟩

/-- Claim C9 (confirmed): `BoundingBox` reads `Triangles[0]` before its loop.
With at least one triangle every access is in bounds and the function is
total (`some` result); on an empty mesh the very first access is out of
bounds — a runtime panic that aborts execution, modelled as `none`, not a
silently returned default box. -/
theorem C9_BoundingBox_totality :
    BoundingBox ([] : List (Triangle ℚ)) = none ∧
    ∀ ts : List (Triangle ℚ), ts ≠ [] → ∃ p, BoundingBox ts = some p := by
  refine ⟨rfl, ?_⟩
  intro ts h
  cases ts with
  | nil => exact absurd rfl h
  | cons t rest => exact ⟨_, rfl⟩

/-- Witness for C9 at a concrete one-triangle mesh. -/
theorem C9_witness :
    ∃ p, BoundingBox [(⟨⟨0, 0, 0⟩, ⟨0, 0, 0⟩, ⟨0, 0, 0⟩, ⟨0, 0, 0⟩⟩ : Triangle ℚ)] = some p :=
  C9_BoundingBox_totality.2 _ (by simp)

/-- Claim C4 (confirmed): whenever `BoundingBox` returns corners `(mn, mx)`
(which it does exactly when the mesh is nonempty, see `C9`), each axis of
`mn` is attained by some vertex coordinate and bounds all vertex coordinates
on that axis from below; symmetrically for `mx`; and overwriting every
triangle's normal with an arbitrary vector does not change the result. -/
theorem C4_BoundingBox_spec (ts : List (Triangle ℚ)) (mn mx : Vec3 ℚ)
    (h : BoundingBox ts = some (mn, mx)) :
    (mn.x ∈ axisCoords Vec3.x ts ∧ ∀ c ∈ axisCoords Vec3.x ts, mn.x ≤ c) ∧
    (mn.y ∈ axisCoords Vec3.y ts ∧ ∀ c ∈ axisCoords Vec3.y ts, mn.y ≤ c) ∧
    (mn.z ∈ axisCoords Vec3.z ts ∧ ∀ c ∈ axisCoords Vec3.z ts, mn.z ≤ c) ∧
    (mx.x ∈ axisCoords Vec3.x ts ∧ ∀ c ∈ axisCoords Vec3.x ts, c ≤ mx.x) ∧
    (mx.y ∈ axisCoords Vec3.y ts ∧ ∀ c ∈ axisCoords Vec3.y ts, c ≤ mx.y) ∧
    (mx.z ∈ axisCoords Vec3.z ts ∧ ∀ c ∈ axisCoords Vec3.z ts, c ≤ mx.z) ∧
    (∀ v : Vec3 ℚ, BoundingBox (ts.map (fun t => { t with normal := v })) = BoundingBox ts) := by
  cases ts with
  | nil => simp [BoundingBox] at h
  | cons t0 rest =>
    simp only [BoundingBox, Option.some.injEq] at h
    have h1 := BoundingBox_min_axis Vec3.x (fun acc t => rfl) t0 rest
    have h2 := BoundingBox_min_axis Vec3.y (fun acc t => rfl) t0 rest
    have h3 := BoundingBox_min_axis Vec3.z (fun acc t => rfl) t0 rest
    have h4 := BoundingBox_max_axis Vec3.x (fun acc t => rfl) t0 rest
    have h5 := BoundingBox_max_axis Vec3.y (fun acc t => rfl) t0 rest
    have h6 := BoundingBox_max_axis Vec3.z (fun acc t => rfl) t0 rest
    rw [h] at h1 h2 h3 h4 h5 h6
    exact ⟨h1, h2, h3, h4, h5, h6, fun v => BoundingBox_map_normal (t0 :: rest) v⟩

/-- Witness for C4: the spec's example, a single triangle with vertices
`(0,0,0)`, `(1,0,0)`, `(0,1,0)`; the returned min corner is `(0,0,0)` and its
x-axis value is attained and bounds every vertex x-coordinate. -/
theorem C4_witness :
    (0 : ℚ) ∈ axisCoords Vec3.x
        [(⟨⟨0, 0, 1⟩, ⟨0, 0, 0⟩, ⟨1, 0, 0⟩, ⟨0, 1, 0⟩⟩ : Triangle ℚ)] ∧
      ∀ c ∈ axisCoords Vec3.x
        [(⟨⟨0, 0, 1⟩, ⟨0, 0, 0⟩, ⟨1, 0, 0⟩, ⟨0, 1, 0⟩⟩ : Triangle ℚ)], (0 : ℚ) ≤ c :=
  (C4_BoundingBox_spec
    [(⟨⟨0, 0, 1⟩, ⟨0, 0, 0⟩, ⟨1, 0, 0⟩, ⟨0, 1, 0⟩⟩ : Triangle ℚ)]
    ⟨0, 0, 0⟩ ⟨1, 1, 0⟩ (by decide)).1

/-- Counterexample to claim C1 as stated.  The claim says that when
`dot(n, candidate) > 0` the pre-normalization corrected normal equals
`candidate = cross(p0, p1)`.  At the triangle with stored normal `(0,0,1)`,
`p0 = (1,0,0)`, `p1 = (0,1,0)` the candidate is `(0,0,1)`, the dot product is
`1 > 0`, yet the source's branch `if dot(n0, n1) > 0 { n1 = cross(P1, P0) }`
replaces the candidate precisely in this case, producing `(0,0,-1)` — the
code's convention is the opposite of the claim's. -/
theorem C1_counterexample :
    dot (⟨⟨0, 0, 1⟩, ⟨1, 0, 0⟩, ⟨0, 1, 0⟩, ⟨0, 0, 0⟩⟩ : Triangle ℚ).normal
        (cross (⟨⟨0, 0, 1⟩, ⟨1, 0, 0⟩, ⟨0, 1, 0⟩, ⟨0, 0, 0⟩⟩ : Triangle ℚ).p0
               (⟨⟨0, 0, 1⟩, ⟨1, 0, 0⟩, ⟨0, 1, 0⟩, ⟨0, 0, 0⟩⟩ : Triangle ℚ).p1) > 0 ∧
    correctedPreNorm (⟨⟨0, 0, 1⟩, ⟨1, 0, 0⟩, ⟨0, 1, 0⟩, ⟨0, 0, 0⟩⟩ : Triangle ℚ)
      ≠ cross (⟨⟨0, 0, 1⟩, ⟨1, 0, 0⟩, ⟨0, 1, 0⟩, ⟨0, 0, 0⟩⟩ : Triangle ℚ).p0
              (⟨⟨0, 0, 1⟩, ⟨1, 0, 0⟩, ⟨0, 1, 0⟩, ⟨0, 0, 0⟩⟩ : Triangle ℚ).p1 := by
  constructor
  · norm_num [dot, cross]
  · norm_num [correctedPreNorm, dot, cross, Vec3.mk.injEq]

/-- Claim C1 (amended): the branch direction is the opposite of the claim's —
when `dot(n, candidate) > 0` the pre-normalization corrected normal is
`cross(p1, p0)` (the negation of the candidate), and otherwise it is the
candidate `cross(p0, p1)` itself; the final stored normal is `normalize` of
the chosen vector, and it is exactly unit length whenever the chosen vector's
squared length has an exact nonzero rational square root (the exact-model
counterpart of the float statement `|length - 1| < 1e-5`). -/
theorem C1_sign_policy_amended (t : Triangle ℚ) :
    (dot t.normal (cross t.p0 t.p1) > 0 → correctedPreNorm t = cross t.p1 t.p0) ∧
    (¬ dot t.normal (cross t.p0 t.p1) > 0 → correctedPreNorm t = cross t.p0 t.p1) ∧
    fixTriangle t = { t with normal := normalize (correctedPreNorm t) } ∧
    (∀ l : ℚ, l * l = dot (correctedPreNorm t) (correctedPreNorm t) → l ≠ 0 →
      dot (normalize (correctedPreNorm t)) (normalize (correctedPreNorm t)) = 1) := by
  refine ⟨?_, ?_, rfl, ?_⟩
  · intro h
    simp only [correctedPreNorm, if_pos h]
  · intro h
    simp only [correctedPreNorm, if_neg h]
  · intro l hl hl0
    rw [normalize, ← hl, Rat.sqrt_eq]
    have habs : (|l| : ℚ) ≠ 0 := abs_ne_zero.mpr hl0
    have habs2 : (|l| : ℚ) * |l| = l * l := abs_mul_abs_self l
    simp only [normalizeWith, dot] at hl ⊢
    field_simp
    nlinarith [hl, habs2]

/-- Witness for C1 at the counterexample triangle: the positive-dot branch
produces `cross(p1, p0)`, and with chosen vector `(0,0,-1)` (whose squared
length is `1 = 1 * 1`) the normalized stored normal has squared length
exactly 1. -/
theorem C1_witness :
    correctedPreNorm (⟨⟨0, 0, 1⟩, ⟨1, 0, 0⟩, ⟨0, 1, 0⟩, ⟨0, 0, 0⟩⟩ : Triangle ℚ)
        = cross (⟨0, 1, 0⟩ : Vec3 ℚ) (⟨1, 0, 0⟩ : Vec3 ℚ) ∧
    dot (normalize (correctedPreNorm (⟨⟨0, 0, 1⟩, ⟨1, 0, 0⟩, ⟨0, 1, 0⟩, ⟨0, 0, 0⟩⟩ : Triangle ℚ)))
        (normalize (correctedPreNorm (⟨⟨0, 0, 1⟩, ⟨1, 0, 0⟩, ⟨0, 1, 0⟩, ⟨0, 0, 0⟩⟩ : Triangle ℚ)))
      = 1 := by
  have h := C1_sign_policy_amended (⟨⟨0, 0, 1⟩, ⟨1, 0, 0⟩, ⟨0, 1, 0⟩, ⟨0, 0, 0⟩⟩ : Triangle ℚ)
  exact ⟨h.1 (by norm_num [dot, cross]),
    h.2.2.2 1 (by norm_num [correctedPreNorm, dot, cross]) (by norm_num)⟩

/-- Claim C2 (amended): for every mesh with fewer than `2 ^ 32` triangles
(so that the `uint32` count field can represent the length), decoding the
encoded byte stream returns exactly the original triangle sequence — same
length, same order, every normal and vertex position bit-for-bit equal.
The header content and the 2 trailing bytes per record are consumed and
discarded by the parser, so they are outside the comparison by
construction. -/
theorem C2_round_trip (ts : List (Triangle Nat)) (hv : ∀ t ∈ ts, validTriangle t)
    (hn : ts.length < 2 ^ 32) :
    ParseStlFile (WriteToFile ts) = some ts := by
  rw [ParseStlFile_WriteToFile, uint32From_bytesFrom hn, parseTriangles_flatten ts hv]

/-- Witness for C2 at a concrete one-triangle mesh. -/
theorem C2_witness :
    ParseStlFile (WriteToFile [(⟨⟨1, 2, 3⟩, ⟨4, 5, 6⟩, ⟨7, 8, 9⟩, ⟨10, 11, 12⟩⟩ : Triangle Nat)])
      = some [(⟨⟨1, 2, 3⟩, ⟨4, 5, 6⟩, ⟨7, 8, 9⟩, ⟨10, 11, 12⟩⟩ : Triangle Nat)] :=
  C2_round_trip _ (by decide) (by decide)

/-- Counterexample to claim C2 as stated ("for every mesh with zero or more
triangles").  A mesh of `2 ^ 32` triangles encodes with count field
`2 ^ 32 % 2 ^ 32 = 0` (Go's `uint32(len(m.Triangles))` truncates), so decoding
the encoded stream returns the empty mesh, not the original sequence. -/
theorem C2_counterexample :
    ParseStlFile (WriteToFile (List.replicate (2 ^ 32)
        (⟨⟨0, 0, 0⟩, ⟨0, 0, 0⟩, ⟨0, 0, 0⟩, ⟨0, 0, 0⟩⟩ : Triangle Nat)))
      ≠ some (List.replicate (2 ^ 32)
        (⟨⟨0, 0, 0⟩, ⟨0, 0, 0⟩, ⟨0, 0, 0⟩, ⟨0, 0, 0⟩⟩ : Triangle Nat)) := by
  have h1 : ParseStlFile (WriteToFile (List.replicate (2 ^ 32)
      (⟨⟨0, 0, 0⟩, ⟨0, 0, 0⟩, ⟨0, 0, 0⟩, ⟨0, 0, 0⟩⟩ : Triangle Nat))) = some [] := by
    rw [ParseStlFile_WriteToFile, List.length_replicate, uint32From_bytesFrom_mod, Nat.mod_self]
    rfl
  rw [h1]
  intro hEq
  have h2 : (0 : Nat) = 2 ^ 32 := by
    have h3 := congrArg List.length (Option.some.inj hEq)
    rw [List.length_nil, List.length_replicate] at h3
    exact h3
  norm_num at h2

/-- Claim C5 (amended): the encoder writes, as the 4-byte little-endian count
field, the current length of the triangle sequence reduced mod `2 ^ 32`
(Go's `uint32(len(...))` conversion); the field equals the length exactly
whenever the length is below `2 ^ 32`.  The count is computed from the
triangle sequence alone at write time — the model's `Model` carries no count
captured at parse time — so a sequence mutated after parsing encodes with its
current length. -/
theorem C5_count_field (ts : List (Triangle Nat)) :
    ((WriteToFile ts).drop 80).take 4 = bytesFrom ts.length ∧
    uint32From (((WriteToFile ts).drop 80).take 4) = ts.length % 2 ^ 32 ∧
    (ts.length < 2 ^ 32 → uint32From (((WriteToFile ts).drop 80).take 4) = ts.length) := by
  refine ⟨WriteToFile_countField ts, ?_, ?_⟩
  · rw [WriteToFile_countField, uint32From_bytesFrom_mod]
  · intro h
    rw [WriteToFile_countField, uint32From_bytesFrom h]

/-- Witness for C5 at a concrete one-triangle mesh. -/
theorem C5_witness :
    uint32From (((WriteToFile
        [(⟨⟨0, 0, 0⟩, ⟨0, 0, 0⟩, ⟨0, 0, 0⟩, ⟨0, 0, 0⟩⟩ : Triangle Nat)]).drop 80).take 4) = 1 :=
  (C5_count_field [(⟨⟨0, 0, 0⟩, ⟨0, 0, 0⟩, ⟨0, 0, 0⟩, ⟨0, 0, 0⟩⟩ : Triangle Nat)]).2.2
    (by norm_num)

/-- Counterexample to claim C5 as stated ("exactly the length ... for every
mesh"): at `2 ^ 32` triangles the written count field decodes to `0`, not to
the sequence length. -/
theorem C5_counterexample :
    uint32From (((WriteToFile (List.replicate (2 ^ 32)
        (⟨⟨0, 0, 0⟩, ⟨0, 0, 0⟩, ⟨0, 0, 0⟩, ⟨0, 0, 0⟩⟩ : Triangle Nat))).drop 80).take 4) = 0 ∧
    (List.replicate (2 ^ 32)
        (⟨⟨0, 0, 0⟩, ⟨0, 0, 0⟩, ⟨0, 0, 0⟩, ⟨0, 0, 0⟩⟩ : Triangle Nat)).length ≠ 0 := by
  constructor
  · rw [WriteToFile_countField, List.length_replicate, uint32From_bytesFrom_mod]
    norm_num
  · rw [List.length_replicate]
    norm_num

/-- Claim C3 (confirmed): truncation detection.  A stream shorter than 84
bytes never parses; and whenever the 4-byte count field declares `n` but the
stream is shorter than `84 + 50 * n` bytes, parsing fails with `none` — the
partially built triangle list is discarded, never returned. -/
theorem C3_truncation (bs : List Nat) :
    (bs.length < 84 → ParseStlFile bs = none) ∧
    (∀ n : Nat, uint32From ((bs.drop 80).take 4) = n → bs.length < 84 + 50 * n →
      ParseStlFile bs = none) := by
  constructor
  · intro h
    unfold ParseStlFile
    by_cases h80 : bs.length < 80
    · rw [if_pos h80]
    · rw [if_neg h80, if_pos (by simp only [List.length_drop]; omega)]
  · intro n hn hlen
    unfold ParseStlFile
    by_cases h80 : bs.length < 80
    · rw [if_pos h80]
    · rw [if_neg h80]
      by_cases h4 : (bs.drop 80).length < 4
      · rw [if_pos h4]
      · rw [if_neg h4, hn]
        apply parseTriangles_short
        rw [List.length_drop] at h4
        rw [List.length_drop, List.length_drop]
        omega

/-- Witness for C3: an 83-byte stream fails, and an 84-byte stream declaring
one triangle but carrying no record fails. -/
theorem C3_witness :
    ParseStlFile (List.replicate 83 0) = none ∧
    ParseStlFile (List.replicate 80 0 ++ [1, 0, 0, 0]) = none :=
  ⟨(C3_truncation (List.replicate 83 0)).1 (by decide),
   (C3_truncation (List.replicate 80 0 ++ [1, 0, 0, 0])).2 1 (by decide) (by decide)⟩

/-- Claim C6 (confirmed): encoded byte layout.  The output starts with an
80-byte header — ASCII `S`, `T`, `L` then 77 zero bytes; the total length is
`84 + 50 * count`, so each triangle occupies exactly 50 bytes; and the record
of triangle `i`, at offset `84 + 50 * i`, is the normal, `p0`, `p1`, `p2`
blocks (each three little-endian 4-byte floats, `encodeVec3`) followed by the
2 trailing zero bytes. -/
theorem C6_layout (ts : List (Triangle Nat)) :
    (WriteToFile ts).take 80 = 83 :: 84 :: 76 :: List.replicate 77 0 ∧
    (WriteToFile ts).length = 84 + 50 * ts.length ∧
    ∀ (i : Nat) (hi : i < ts.length),
      ((WriteToFile ts).drop (84 + 50 * i)).take 50
        = encodeVec3 (ts.get ⟨i, hi⟩).normal ++ encodeVec3 (ts.get ⟨i, hi⟩).p0
            ++ encodeVec3 (ts.get ⟨i, hi⟩).p1 ++ encodeVec3 (ts.get ⟨i, hi⟩).p2 ++ [0, 0] := by
  have hpre : (stlHeader ++ bytesFrom ts.length).length = 84 := by
    simp [List.length_append, stlHeader_length, bytesFrom_length]
  have hsplit : WriteToFile ts
      = (stlHeader ++ bytesFrom ts.length) ++ (ts.map encodeTriangle).flatten := by
    simp [WriteToFile, List.append_assoc]
  refine ⟨?_, WriteToFile_length ts, ?_⟩
  · unfold WriteToFile
    rw [List.append_assoc, List.take_left' stlHeader_length]
    rfl
  · intro i hi
    rw [hsplit, show 84 + 50 * i = (stlHeader ++ bytesFrom ts.length).length + 50 * i by
      rw [hpre], List.drop_append]
    have hs := flatten_blocks_slice 50 (ts.map encodeTriangle) []
      (fun b hb => by
        obtain ⟨t, ht, rfl⟩ := List.mem_map.mp hb
        exact encodeTriangle_length t)
      i (by simpa using hi)
    rw [List.append_nil] at hs
    rw [hs, List.get_map]
    rfl

/-- Witness for C6: the record slice of a concrete one-triangle mesh. -/
theorem C6_witness :
    ((WriteToFile [(⟨⟨1, 2, 3⟩, ⟨4, 5, 6⟩, ⟨7, 8, 9⟩, ⟨10, 11, 12⟩⟩ : Triangle Nat)]).drop
        84).take 50
      = encodeVec3 ⟨1, 2, 3⟩ ++ encodeVec3 ⟨4, 5, 6⟩ ++ encodeVec3 ⟨7, 8, 9⟩
          ++ encodeVec3 ⟨10, 11, 12⟩ ++ [0, 0] :=
  (C6_layout [(⟨⟨1, 2, 3⟩, ⟨4, 5, 6⟩, ⟨7, 8, 9⟩, ⟨10, 11, 12⟩⟩ : Triangle Nat)]).2.2 0
    (by norm_num)

/-- Claim C10 (confirmed): `bytesFrom` always produces exactly 4 bytes, least
significant first (byte `i` is `u / 256^i % 256`); `uint32From` inverts it on
every `uint32` value, and `bytesFrom` inverts `uint32From` on every 4-byte
sequence, so the two helpers are mutually inverse. -/
theorem C10_byte_helpers :
    (∀ u : Nat, u < 2 ^ 32 →
      (bytesFrom u).length = 4 ∧
      bytesFrom u = [u % 256, u / 256 % 256, u / 65536 % 256, u / 16777216 % 256] ∧
      uint32From (bytesFrom u) = u) ∧
    (∀ bs : List Nat, bs.length = 4 → (∀ b ∈ bs, b < 256) →
      bytesFrom (uint32From bs) = bs) := by
  constructor
  · intro u hu
    exact ⟨bytesFrom_length u, bytesFrom_eq u, uint32From_bytesFrom hu⟩
  · intro bs hlen hb
    rcases bs with _ | ⟨b0, _ | ⟨b1, _ | ⟨b2, _ | ⟨b3, _ | ⟨b4, bs⟩⟩⟩⟩⟩ <;>
      simp only [List.length_nil, List.length_cons] at hlen
    · omega
    · omega
    · omega
    · omega
    · exact bytesFrom_uint32From (hb b0 (by simp)) (hb b1 (by simp)) (hb b2 (by simp))
        (hb b3 (by simp))
    · omega

/-- Witness for C10 at `0x12345678` and its little-endian bytes. -/
theorem C10_witness :
    uint32From (bytesFrom 305419896) = 305419896 ∧
    bytesFrom (uint32From [120, 86, 52, 18]) = [120, 86, 52, 18] :=
  ⟨(C10_byte_helpers.1 305419896 (by norm_num)).2.2,
   C10_byte_helpers.2 [120, 86, 52, 18] (by decide) (by decide)⟩

end Gostl
